import Mathlib

/- Verification of the durable-agent workflow template.
   Shallow embedding of src/worker/workflow.ts, src/worker/agent.ts,
   the tool module (tools) and the shared type module (types).
   External collaborators (the LLM gateway network call, JSON.parse,
   the two tools' HTTP fetches) are oracle parameters collected in `Env`;
   everything the repository itself does is embedded from the source. -/

/-- JSON values. Every step result is a plain JSON value, because the
workflow serializes it with JSON.parse(JSON.stringify(result))
(workflow.ts line 106) before it is stored by the Workflow engine. -/
inductive JVal where
  | null : JVal
  | bool : Bool → JVal
  | num : Int → JVal
  | str : String → JVal
  | arr : List JVal → JVal
  | obj : List (String × JVal) → JVal

/-- First binding of a key in a JS object literal (JSON.parse never
produces duplicate keys, so first-match lookup is exact). -/
def lookupField : List (String × JVal) → String → Option JVal
  | [], _ => none
  | (k, v) :: fs, key => if k = key then some v else lookupField fs key

/-- JS property read `v[k]` on a non-null base: objects look the key up,
every other base (number, string, boolean, array with a non-index key)
yields undefined, modelled as `none`.  Reads on a null or undefined base
throw in JS; call sites below handle those cases explicitly before
calling `jsProp`. -/
def jsProp (v : JVal) (k : String) : Option JVal :=
  match v with
  | .obj fs => lookupField fs k
  | _ => none

/-- JS falsiness for JSON values (`!x` in workflow.ts lines 119 and 147). -/
def falsy : JVal → Bool
  | .null => true
  | .bool b => !b
  | .num n => n == 0
  | .str s => s == ""
  | _ => false

/-- Falsiness of a possibly-undefined value (undefined is falsy). -/
def falsyOpt : Option JVal → Bool
  | none => true
  | some v => falsy v

mutual

/-- JS ToString coercion of a JSON value (template literals, `${x}`). -/
def jsToString : JVal → String
  | .null => "null"
  | .bool true => "true"
  | .bool false => "false"
  | .num n => toString n
  | .str s => s
  | .arr xs => jsToStringCSV xs
  | .obj _ => "[object Object]"

/-- Array.prototype.toString: elements joined with commas. -/
def jsToStringCSV : List JVal → String
  | [] => ""
  | [x] => jsToStringItem x
  | x :: xs => jsToStringItem x ++ "," ++ jsToStringCSV xs

/-- Inside Array.prototype.join, null renders as the empty string. -/
def jsToStringItem : JVal → String
  | .null => ""
  | v => jsToString v

end

/-- ToString of a possibly-undefined value (undefined prints "undefined"). -/
def jsToStringOpt : Option JVal → String
  | none => "undefined"
  | some v => jsToString v

/-- Does a possibly-undefined value hold a string? (typeof x === "string") -/
def isStrVal : Option JVal → Bool
  | some (.str _) => true
  | _ => false

/-- Does a possibly-undefined value hold an array? (Array.isArray) -/
def isArrVal : Option JVal → Bool
  | some (.arr _) => true
  | _ => false

/-- types module, isChatCompletionResponse: the value is a non-null object
whose id is a string, whose model is a string and whose choices is an
array.  A non-object (or an array, whose "id" read is undefined) fails. -/
def isChatCompletionResponse (v : JVal) : Bool :=
  isStrVal (jsProp v "id") && isStrVal (jsProp v "model") && isArrVal (jsProp v "choices")

/-- tools module, isSearchReposInput: non-null object with a "query" key
holding a string.  (typeof v === "object", v !== null, "query" in v and
typeof v.query === "string" collapse to exactly this on JSON values.) -/
def isSearchReposInput (v : JVal) : Bool :=
  isStrVal (jsProp v "query")

/-- tools module, isGetRepoInput: non-null object with string "owner" and
string "repo". -/
def isGetRepoInput (v : JVal) : Bool :=
  isStrVal (jsProp v "owner") && isStrVal (jsProp v "repo")

/- ---------- Typed layer: the documented ChatCompletionResponse shape ---------- -/

/-- types module, ToolCall.function. -/
structure ToolCallFunction where
  name : String
  arguments : String

/-- types module, ToolCall (the "type" field is the constant "function";
it is added by the encoder below). -/
structure ToolCall where
  id : String
  function : ToolCallFunction

/-- types module, finish_reason union. -/
inductive FinishReason where
  | stop
  | tool_calls
  | length
  | content_filter

def FinishReason.toStr : FinishReason → String
  | .stop => "stop"
  | .tool_calls => "tool_calls"
  | .length => "length"
  | .content_filter => "content_filter"

/-- types module, choices[i].message: content is string or null,
tool_calls is optional. -/
structure AssistantMessage where
  content : Option String
  tool_calls : Option (List ToolCall)

/-- types module, one element of ChatCompletionResponse.choices. -/
structure Choice where
  message : AssistantMessage
  finish_reason : FinishReason

/-- types module, ChatCompletionResponse. -/
structure ChatCompletionResponse where
  id : String
  model : String
  choices : List Choice

def encodeContent : Option String → JVal
  | none => .null
  | some s => .str s

def encodeToolCall (tc : ToolCall) : JVal :=
  .obj [("id", .str tc.id), ("type", .str "function"),
        ("function", .obj [("name", .str tc.function.name),
                           ("arguments", .str tc.function.arguments)])]

def encodeAssistant (m : AssistantMessage) : JVal :=
  match m.tool_calls with
  | none => .obj [("role", .str "assistant"), ("content", encodeContent m.content)]
  | some l => .obj [("role", .str "assistant"), ("content", encodeContent m.content),
                    ("tool_calls", .arr (l.map encodeToolCall))]

def encodeChoice (c : Choice) : JVal :=
  .obj [("message", encodeAssistant c.message),
        ("finish_reason", .str c.finish_reason.toStr)]

/-- A gateway body that conforms to the documented response contract. -/
def encodeResponse (r : ChatCompletionResponse) : JVal :=
  .obj [("id", .str r.id), ("model", .str r.model),
        ("choices", .arr (r.choices.map encodeChoice))]

/- ---------- Conversation and progress data ---------- -/

/-- types module, ChatMessage, as the running loop stores it: content,
tool_calls and tool_call_id hold whatever JSON value (or undefined,
modelled `none`) the code assigned. -/
structure ChatMessage where
  role : String
  content : Option JVal := none
  tool_calls : Option JVal := none
  tool_call_id : Option JVal := none

/-- types module, ProgressUpdate.  `result` distinguishes an absent key
(outer `none`, the spread keeps the previous value) from a key that is
present but undefined (`some none`, the spread overwrites with undefined). -/
structure ProgressUpdate where
  status : String
  message : String
  result : Option (Option JVal) := none

/-- agent.ts, AgentState (same presence convention for `result`). -/
structure AgentState where
  status : String
  message : String
  result : Option (Option JVal) := none

/-- agent.ts line 6: initialState = { status: idle, message: "" }. -/
def ResearchAgent.initialState : AgentState :=
  { status := "idle", message := "" }

/-- agent.ts lines 8-10: reset() replaces the whole state (setState with a
fresh object, no spread), dropping any result key. -/
def ResearchAgent.reset (_ : AgentState) : AgentState :=
  { status := "idle", message := "" }

/-- agent.ts lines 12-14: updateProgress does
setState({ ...this.state, ...progress }): status and message are always
present in a ProgressUpdate and overwrite; the result key overwrites
exactly when it is present in the update. -/
def ResearchAgent.updateProgress (st : AgentState) (p : ProgressUpdate) : AgentState :=
  { status := p.status, message := p.message,
    result := match p.result with
      | none => st.result
      | some r => some r }

/-- workflow.ts, WorkflowResult.  `result` is `none` when the field is
absent (max_turns_reached) or null. -/
structure WorkflowResult where
  status : String
  turns : Nat
  result : Option JVal := none

/-- The value of `x ?? null` (and of `x ?? undefined`, which coincides
here): undefined and null collapse to `none`. -/
def undefNull : Option JVal → Option JVal
  | none => none
  | some .null => none
  | some v => some v

/- ---------- External world ---------- -/

/-- What can abort a run: a checkpointed step exhausting its retries
(the StepExhausted error of the Workflow engine), or an unhandled JS
TypeError raised by the loop body itself (property access on
undefined/null, for-of over a non-iterable). -/
inductive RunError where
  | stepExhausted : RunError
  | jsError : RunError
deriving DecidableEq

/-- Oracles for everything outside the repository, plus the MAX_AGENT_TURNS
constant (its defining module, constants, is not among the sources; the
spec only names it MAX_TURNS, so it stays a parameter).
  gw turn attempt msgs  — callAIGateway: an error is a rejected fetch or a
    non-2xx response (both throw, workflow.ts lines 40-43); an ok value is
    the parsed 2xx JSON body.
  jsonParse s           — JSON.parse: `none` means it throws.
  searchNet / getRepoNet turn callIdx attempt args — the network behaviour
    of searchReposTool.run / getRepoTool.run: an error is a rejected
    fetch (thrown); an ok string covers both the JSON result and the
    "Search failed:"/"Repo not found:" strings the tools return. -/
structure Env where
  maxTurns : Nat
  gw : Nat → Nat → List ChatMessage → Except Unit JVal
  jsonParse : String → Option JVal
  searchNet : Nat → Nat → Nat → JVal → Except Unit String
  getRepoNet : Nat → Nat → Nat → JVal → Except Unit String

/-- Run the attempts of one checkpointed step: try attempt i, on a throw
move to the next attempt, until none are left. -/
def stepTry (body : Nat → Except Unit α) : Nat → Nat → Except Unit α
  | 0, _ => .error ()
  | n+1, i =>
    match body i with
    | .ok a => .ok a
    | .error _ => stepTry body n (i+1)

/-- step.do with { retries: { limit } }: the first attempt plus `limit`
retries; if every attempt throws the step fails with StepExhausted. -/
def stepDo (limit : Nat) (body : Nat → Except Unit α) : Except Unit α :=
  stepTry body (limit+1) 0

/-- Evaluation of toolCall.function (and .name) in the template literal of
workflow.ts line 153, with JS throw semantics: reading .function on a null
element throws, as does reading .name when .function is undefined or null. -/
def toolFnObj (tc : JVal) : Except Unit (JVal × Option JVal) :=
  match tc with
  | .null => .error ()
  | _ =>
    match jsProp tc "function" with
    | none => .error ()
    | some .null => .error ()
    | some f => .ok (f, jsProp f "name")

/-- The body of the tool step (workflow.ts lines 160-176): parse the
arguments (a throwing JSON.parse fails the attempt), then switch on the
tool name: validate and run for the two known tools, or return the
"Unknown tool" string for anything else. -/
def toolBody (env : Env) (turn idx attempt : Nat) (f : JVal) (nameOpt : Option JVal) :
    Except Unit String :=
  match env.jsonParse (jsToStringOpt (jsProp f "arguments")) with
  | none => .error ()
  | some args =>
    match nameOpt with
    | some (.str n) =>
      if n = "search_repos" then
        if isSearchReposInput args then env.searchNet turn idx attempt args
        else .ok "Invalid arguments for search_repos"
      else if n = "get_repo" then
        if isGetRepoInput args then env.getRepoNet turn idx attempt args
        else .ok "Invalid arguments for get_repo"
      else .ok ("Unknown tool: " ++ n)
    | other => .ok ("Unknown tool: " ++ jsToStringOpt other)

/-- The tool-role message pushed for a completed tool step
(workflow.ts lines 180-185). -/
def mkToolMsg (tc : JVal) (s : String) : ChatMessage :=
  { role := "tool", content := some (.str s), tool_call_id := jsProp tc "id" }

/-- The assistant message pushed on every non-skipped turn
(workflow.ts lines 121-126). -/
def mkAssistantMsg (content tcs : Option JVal) : ChatMessage :=
  { role := "assistant", content := content, tool_calls := tcs }

/-- The per-turn progress update (workflow.ts lines 87-91). -/
def analyzingUpd (turn : Nat) : ProgressUpdate :=
  { status := "analyzing", message := "Processing turn " ++ toString (turn+1) ++ "..." }

/-- The per-tool-call progress update (workflow.ts lines 151-155). -/
def fetchingUpd (nameOpt : Option JVal) : ProgressUpdate :=
  { status := "fetching", message := "Using tool: " ++ jsToStringOpt nameOpt ++ "..." }

/-- The completion update (workflow.ts lines 131-136); its result key is
present, holding content ?? undefined. -/
def completeUpd (content : Option JVal) : ProgressUpdate :=
  { status := "complete", message := "Analysis complete!",
    result := some (undefNull content) }

/-- The initial update (workflow.ts lines 77-82): result present and "". -/
def initialUpd : ProgressUpdate :=
  { status := "searching", message := "Starting analysis...",
    result := some (some (.str "")) }

/-- The for-of over the assistant's tool calls (workflow.ts lines 149-186):
for each call publish a fetching update, run the checkpointed tool step,
and append the tool-role message.  The third component reports how the
iteration ended: `none` normally, or the error that aborted the run. -/
def toolLoop (env : Env) (turn : Nat) :
    Nat → List JVal → List ChatMessage → List ProgressUpdate →
    List ChatMessage × List ProgressUpdate × Option RunError
  | _, [], m, tr => (m, tr, none)
  | idx, tc :: rest, m, tr =>
    match toolFnObj tc with
    | .error _ => (m, tr, some .jsError)
    | .ok (f, nameOpt) =>
      let tr2 := tr ++ [fetchingUpd nameOpt]
      match stepDo 2 (fun i => toolBody env turn idx i f nameOpt) with
      | .error _ => (m, tr2, some .stepExhausted)
      | .ok s => toolLoop env turn (idx+1) rest (m ++ [mkToolMsg tc s]) tr2

/-- response.choices once the shape guard has passed (it is then an array). -/
def choicesOf (v : JVal) : List JVal :=
  match jsProp v "choices" with
  | some (.arr l) => l
  | _ => []

/-- finish_reason === "stop". -/
def strEq (v : Option JVal) (s : String) : Bool :=
  match v with
  | some (.str t) => t == s
  | _ => false

/-- tool_calls.length === 0 (only an actual empty array compares equal). -/
def isEmptyArr : Option JVal → Bool
  | some (.arr []) => true
  | _ => false

/-- The iterable-array view used by the for-of over tool_calls
(workflow.ts line 149): only an actual array iterates its elements; any
other truthy non-empty value (object, number, true, or a non-empty string,
whose first character already lacks a .function property) makes the loop
body throw a TypeError before anything is appended or published. -/
def arrOf : Option JVal → Option (List JVal)
  | some (.arr l) => some l
  | _ => none

/-- Everything a run produces: the final messages transcript, the sequence
of progress updates published to the agent, and the outcome (the returned
WorkflowResult, or the error that aborted the run). -/
structure RunOut where
  messages : List ChatMessage
  trace : List ProgressUpdate
  outcome : Except RunError WorkflowResult

/-- The agent loop of AgentWorkflow.run (workflow.ts lines 85-190), one
recursive step per iteration of `for (let turn = 0; turn < MAX_AGENT_TURNS;
turn++)`; the first argument is the number of remaining iterations. -/
def AgentWorkflow.runLoop (env : Env) :
    Nat → Nat → List ChatMessage → List ProgressUpdate → RunOut
  | 0, _, m, tr =>
    -- loop exhausted: return { status: "max_turns_reached", turns: MAX_AGENT_TURNS }
    ⟨m, tr, .ok { status := "max_turns_reached", turns := env.maxTurns }⟩
  | rem+1, turn, m, tr =>
    let tr1 := tr ++ [analyzingUpd turn]
    match stepDo 3 (fun i => env.gw turn i m) with
    | .error _ => ⟨m, tr1, .error .stepExhausted⟩
    | .ok v =>
      if isChatCompletionResponse v = false then
        AgentWorkflow.runLoop env rem (turn+1) m tr1
      else
        match choicesOf v with
        | [] => AgentWorkflow.runLoop env rem (turn+1) m tr1
        | choice :: _ =>
          if falsy choice then AgentWorkflow.runLoop env rem (turn+1) m tr1
          else
            match undefNull (jsProp choice "message") with
            | none => ⟨m, tr1, .error .jsError⟩
            | some mv =>
              let content := jsProp mv "content"
              let tcs := jsProp mv "tool_calls"
              let m2 := m ++ [mkAssistantMsg content tcs]
              if strEq (jsProp choice "finish_reason") "stop" || falsyOpt tcs || isEmptyArr tcs then
                ⟨m2, tr1 ++ [completeUpd content],
                 .ok { status := "complete", turns := turn+1, result := undefNull content }⟩
              else
                match arrOf tcs with
                | some l =>
                  match toolLoop env turn 0 l m2 tr1 with
                  | (m3, tr3, none) => AgentWorkflow.runLoop env rem (turn+1) m3 tr3
                  | (m3, tr3, some e) => ⟨m3, tr3, .error e⟩
                | none => ⟨m2, tr1, .error .jsError⟩

/-- AgentWorkflow.run (workflow.ts lines 64-190): seed the transcript with
the user task, publish the initial searching update that clears the
result, and drive the loop from turn 0. -/
def AgentWorkflow.run (env : Env) (task : String) : RunOut :=
  AgentWorkflow.runLoop env env.maxTurns 0
    [{ role := "user", content := some (.str task) }]
    [initialUpd]

/- ---------- StepExecutor ---------- -/

/-- Modelled from the spec: the StepExecutor / step.do checkpoint-and-retry
primitive lives in the Cloudflare Workflows engine, not in the repository
sources; this model follows spec section 4.1 (StepRecord, RetryPolicy,
execute).  BackoffKind: fixed or exponentially growing delay. -/
inductive BackoffKind where
  | fixed
  | exponential

/-- Modelled from the spec: a retry policy is a maximum attempt count, a
base delay and a backoff kind (delays affect timing only, never which
result is computed, so they are carried but not interpreted). -/
structure RetryPolicy where
  limit : Nat
  delayMs : Nat
  backoff : BackoffKind

/-- Modelled from the spec: the outcome field of a StepRecord. -/
inductive StepOutcome (α : Type) where
  | pending : StepOutcome α
  | succeeded : α → StepOutcome α
  | failed : StepOutcome α

/-- Modelled from the spec: a StepRecord — key, attempt count, outcome
(with the cached result payload inside `succeeded`). -/
structure StepRecord (α : Type) where
  key : String
  attempts : Nat
  outcome : StepOutcome α

def findRecord : List (StepRecord α) → String → Option (StepRecord α)
  | [], _ => none
  | r :: rs, k => if r.key = k then some r else findRecord rs k

/-- Replace the record with the given key, or append it if absent. -/
def setRecord : List (StepRecord α) → StepRecord α → List (StepRecord α)
  | [], r => [r]
  | s :: ss, r => if s.key = r.key then r :: ss else s :: setRecord ss r

/-- Run up to `fuel` attempts of the operation, keeping the last error;
returns the result together with the number of invocations made. -/
def attemptLoop (op : Nat → Except String α) (lastErr : String) :
    Nat → Nat → Except String α × Nat
  | 0, _ => (.error lastErr, 0)
  | n+1, i =>
    match op i with
    | .ok a => (.ok a, 1)
    | .error e =>
      let r := attemptLoop op e n (i+1)
      (r.1, r.2 + 1)

def outcomeOfResult : Except String α → StepOutcome α
  | .ok a => .succeeded a
  | .error _ => .failed

/-- Modelled from the spec: execute(key, retryPolicy, operation).  A key
whose record already succeeded returns the cached result immediately with
zero invocations of the operation; otherwise the operation is attempted up
to policy.limit times, the outcome is recorded under the key, and an
exhausted budget propagates the last error (StepExhausted). -/
def StepExecutor.execute (st : List (StepRecord α)) (key : String) (policy : RetryPolicy)
    (op : Nat → Except String α) : List (StepRecord α) × Except String α × Nat :=
  match findRecord st key with
  | some r =>
    match r.outcome with
    | .succeeded a => (st, .ok a, 0)
    | _ =>
      let res := attemptLoop op "step failed" policy.limit 0
      (setRecord st { key := key, attempts := r.attempts + res.2,
                      outcome := outcomeOfResult res.1 }, res.1, res.2)
  | none =>
    let res := attemptLoop op "step failed" policy.limit 0
    (setRecord st { key := key, attempts := res.2,
                    outcome := outcomeOfResult res.1 }, res.1, res.2)

/-- One later call of the executor: a key, a policy and an operation. -/
def StepCall (α : Type) : Type :=
  String × RetryPolicy × (Nat → Except String α)

/-- Apply a sequence of executor calls to a state, keeping the states. -/
def runCalls (st : List (StepRecord α)) : List (StepCall α) → List (StepRecord α)
  | [] => st
  | c :: cs => runCalls (StepExecutor.execute st c.1 c.2.1 c.2.2).1 cs

/- ---------- Transcript well-formedness predicates ---------- -/

/-- One message is acceptable after a prefix of the transcript: if it is a
tool-role message, its tool_call_id equals the id of some ToolCall carried
by an assistant message in the prefix. -/
def ToolMatches (pre : List ChatMessage) (msg : ChatMessage) : Prop :=
  msg.role = "tool" → ∃ amsg, amsg ∈ pre ∧ amsg.role = "assistant" ∧
    ∃ tcl, amsg.tool_calls = some (.arr tcl) ∧
      ∃ tc, tc ∈ tcl ∧ msg.tool_call_id = jsProp tc "id"

/-- Every message of the second list is acceptable after the first list
plus the messages before it. -/
def ToolIdOkAux : List ChatMessage → List ChatMessage → Prop
  | _, [] => True
  | pre, msg :: rest => ToolMatches pre msg ∧ ToolIdOkAux (pre ++ [msg]) rest

/-- Every tool-role message of the transcript answers a ToolCall emitted in
an earlier assistant message. -/
def ToolIdOk (l : List ChatMessage) : Prop :=
  ToolIdOkAux [] l

/- ---------- Concrete environments for witnesses and counterexamples ---------- -/

/-- Scenario A response: finish_reason stop, content "pong". -/
def respPong : ChatCompletionResponse :=
  { id := "chatcmpl-1", model := "anthropic/claude-sonnet-4-5-20250929",
    choices := [{ message := { content := some "pong", tool_calls := none },
                  finish_reason := .stop }] }

def envPong : Env :=
  { maxTurns := 3,
    gw := fun _ _ _ => .ok (encodeResponse respPong),
    jsonParse := fun _ => none,
    searchNet := fun _ _ _ _ => .ok "",
    getRepoNet := fun _ _ _ _ => .ok "" }

/-- A stop response that nevertheless carries a non-empty tool_calls list. -/
def stopToolsChoice : Choice :=
  { message :=
      { content := some "halting",
        tool_calls := some [{ id := "c9", function := { name := "search_repos", arguments := "args-c9" } }] },
    finish_reason := .stop }

def respStopTools : ChatCompletionResponse :=
  { id := "chatcmpl-2", model := "m", choices := [stopToolsChoice] }

def envStopTools : Env :=
  { maxTurns := 4,
    gw := fun _ _ _ => .ok (encodeResponse respStopTools),
    jsonParse := fun _ => some (.obj [("query", .str "x")]),
    searchNet := fun _ _ _ _ => .ok "[]",
    getRepoNet := fun _ _ _ _ => .ok "" }

/-- A gateway whose 2xx body is a bare string: fails the shape guard. -/
def envBadShape : Env :=
  { maxTurns := 2,
    gw := fun _ _ _ => .ok (.str "oops"),
    jsonParse := fun _ => none,
    searchNet := fun _ _ _ _ => .ok "",
    getRepoNet := fun _ _ _ _ => .ok "" }

/-- A gateway whose 2xx body is the number 7: fails the shape guard. -/
def envNumBody : Env :=
  { maxTurns := 1,
    gw := fun _ _ _ => .ok (.num 7),
    jsonParse := fun _ => none,
    searchNet := fun _ _ _ _ => .ok "",
    getRepoNet := fun _ _ _ _ => .ok "" }

/-- A gateway whose 2xx body is null on every turn. -/
def envShapeLoop : Env :=
  { maxTurns := 2,
    gw := fun _ _ _ => .ok .null,
    jsonParse := fun _ => none,
    searchNet := fun _ _ _ _ => .ok "",
    getRepoNet := fun _ _ _ _ => .ok "" }

/-- An assistant turn requesting tool c1 = search_repos whose arguments
string does not parse as JSON in the environments below. -/
def toolTurnChoice : Choice :=
  { message :=
      { content := none,
        tool_calls := some [{ id := "c1", function := { name := "search_repos", arguments := "not-json" } }] },
    finish_reason := .tool_calls }

def respToolTurn : ChatCompletionResponse :=
  { id := "chatcmpl-3", model := "m", choices := [toolTurnChoice] }

/-- JSON.parse throws on the arguments string "not-json". -/
def envUnparseable : Env :=
  { maxTurns := 2,
    gw := fun _ _ _ => .ok (encodeResponse respToolTurn),
    jsonParse := fun _ => none,
    searchNet := fun _ _ _ _ => .ok "[]",
    getRepoNet := fun _ _ _ _ => .ok "" }

/-- An assistant turn requesting tool c1 = search_repos with parseable
arguments. -/
def toolOkChoice : Choice :=
  { message :=
      { content := none,
        tool_calls := some [{ id := "c1", function := { name := "search_repos", arguments := "args-c1" } }] },
    finish_reason := .tool_calls }

def respToolOk : ChatCompletionResponse :=
  { id := "chatcmpl-5", model := "m", choices := [toolOkChoice] }

def respDone : ChatCompletionResponse :=
  { id := "chatcmpl-4", model := "m",
    choices := [{ message := { content := some "done", tool_calls := none },
                  finish_reason := .stop }] }

/-- Scenario B shape: a tool turn followed by a stop turn. -/
def envToolRun : Env :=
  { maxTurns := 3,
    gw := fun t _ _ => if t = 0 then .ok (encodeResponse respToolOk)
                       else .ok (encodeResponse respDone),
    jsonParse := fun _ => some (.obj [("query", .str "x")]),
    searchNet := fun _ _ _ _ => .ok "searchresult",
    getRepoNet := fun _ _ _ _ => .ok "" }

/-- A gateway that throws on every attempt: the llm step exhausts. -/
def envExhaust : Env :=
  { maxTurns := 1,
    gw := fun _ _ _ => .error (),
    jsonParse := fun _ => none,
    searchNet := fun _ _ _ _ => .ok "",
    getRepoNet := fun _ _ _ _ => .ok "" }

/-- A 2xx body that passes the shallow guard (string id, string model,
array choices) but whose first choice has no message object. -/
def envDeepBad : Env :=
  { maxTurns := 1,
    gw := fun _ _ _ => .ok (.obj [("id", .str "i"), ("model", .str "m"),
        ("choices", .arr [.obj [("oops", .bool true)]])]),
    jsonParse := fun _ => none,
    searchNet := fun _ _ _ _ => .ok "",
    getRepoNet := fun _ _ _ _ => .ok "" }

/-- JSON.parse succeeds but yields an object without the "query" key. -/
def envParse : Env :=
  { maxTurns := 1,
    gw := fun _ _ _ => .error (),
    jsonParse := fun _ => some (.obj [("limit", .num 5)]),
    searchNet := fun _ _ _ _ => .ok "",
    getRepoNet := fun _ _ _ _ => .ok "" }

/- ---------- StepExecutor lemmas ---------- -/

theorem findRecord_eq_key {α : Type} (st : List (StepRecord α)) (k : String) (r : StepRecord α)
    (h : findRecord st k = some r) : r.key = k := by
  induction st with
  | nil => simp [findRecord] at h
  | cons s ss ih =>
    simp only [findRecord] at h
    by_cases hk : s.key = k
    · rw [if_pos hk] at h
      cases h
      exact hk
    · rw [if_neg hk] at h
      exact ih h

theorem findRecord_setRecord_self {α : Type} (st : List (StepRecord α)) (r : StepRecord α) :
    findRecord (setRecord st r) r.key = some r := by
  induction st with
  | nil => simp [setRecord, findRecord]
  | cons s ss ih =>
    simp only [setRecord]
    by_cases hk : s.key = r.key
    · rw [if_pos hk]
      simp [findRecord]
    · rw [if_neg hk]
      simp only [findRecord]
      rw [if_neg hk]
      exact ih

theorem findRecord_setRecord_other {α : Type} (st : List (StepRecord α)) (r : StepRecord α)
    (k : String) (hk : r.key ≠ k) : findRecord (setRecord st r) k = findRecord st k := by
  induction st with
  | nil => simp [setRecord, findRecord, hk]
  | cons s ss ih =>
    simp only [setRecord]
    by_cases hs : s.key = r.key
    · rw [if_pos hs]
      simp only [findRecord]
      rw [if_neg hk, if_neg (by rw [hs]; exact hk)]
    · rw [if_neg hs]
      simp only [findRecord]
      by_cases h2 : s.key = k
      · rw [if_pos h2, if_pos h2]
      · rw [if_neg h2, if_neg h2]
        exact ih

theorem execute_ok_succeeded {α : Type} (st : List (StepRecord α)) (key : String)
    (p : RetryPolicy) (op : Nat → Except String α) (st' : List (StepRecord α)) (a : α) (n : Nat)
    (h : StepExecutor.execute st key p op = (st', .ok a, n)) :
    ∃ cnt, findRecord st' key = some ⟨key, cnt, .succeeded a⟩ := by
  rcases hf : findRecord st key with _ | ⟨rkey, rattempts, ro⟩
  · simp only [StepExecutor.execute, hf, Prod.mk.injEq] at h
    obtain ⟨h1, h2, _⟩ := h
    refine ⟨(attemptLoop op "step failed" p.limit 0).2, ?_⟩
    rw [← h1]
    have hs := findRecord_setRecord_self st
      (⟨key, (attemptLoop op "step failed" p.limit 0).2,
        outcomeOfResult (attemptLoop op "step failed" p.limit 0).1⟩ : StepRecord α)
    simp only at hs
    rw [hs, h2]
    rfl
  · have hkey : rkey = key := findRecord_eq_key st key _ hf
    subst hkey
    rcases ro with _ | b | _ <;>
      simp only [StepExecutor.execute, hf, Prod.mk.injEq] at h
    · obtain ⟨h1, h2, _⟩ := h
      refine ⟨rattempts + (attemptLoop op "step failed" p.limit 0).2, ?_⟩
      rw [← h1]
      have hs := findRecord_setRecord_self st
        (⟨rkey, rattempts + (attemptLoop op "step failed" p.limit 0).2,
          outcomeOfResult (attemptLoop op "step failed" p.limit 0).1⟩ : StepRecord α)
      simp only at hs
      rw [hs, h2]
      rfl
    · obtain ⟨h1, h2, _⟩ := h
      cases Except.ok.inj h2
      refine ⟨rattempts, ?_⟩
      rw [← h1]
      exact hf
    · obtain ⟨h1, h2, _⟩ := h
      refine ⟨rattempts + (attemptLoop op "step failed" p.limit 0).2, ?_⟩
      rw [← h1]
      have hs := findRecord_setRecord_self st
        (⟨rkey, rattempts + (attemptLoop op "step failed" p.limit 0).2,
          outcomeOfResult (attemptLoop op "step failed" p.limit 0).1⟩ : StepRecord α)
      simp only at hs
      rw [hs, h2]
      rfl

theorem execute_preserves_succeeded {α : Type} (st : List (StepRecord α)) (key : String)
    (cnt : Nat) (a : α) (k' : String) (p' : RetryPolicy) (op' : Nat → Except String α)
    (h : findRecord st key = some ⟨key, cnt, .succeeded a⟩) :
    findRecord (StepExecutor.execute st k' p' op').1 key = some ⟨key, cnt, .succeeded a⟩ := by
  rcases hf : findRecord st k' with _ | ⟨rkey, rattempts, ro⟩
  · have hk : k' ≠ key := by
      intro he
      rw [he, h] at hf
      exact Option.noConfusion hf
    simp only [StepExecutor.execute, hf]
    rw [findRecord_setRecord_other st _ key (by simpa using hk)]
    exact h
  · have hkey : rkey = k' := findRecord_eq_key st k' _ hf
    subst hkey
    rcases ro with _ | b | _ <;> simp only [StepExecutor.execute, hf]
    · have hk : rkey ≠ key := by
        intro he
        subst he
        rw [h] at hf
        cases hf
      rw [findRecord_setRecord_other st _ key (by simpa using hk)]
      exact h
    · exact h
    · have hk : rkey ≠ key := by
        intro he
        subst he
        rw [h] at hf
        cases hf
      rw [findRecord_setRecord_other st _ key (by simpa using hk)]
      exact h

theorem runCalls_preserves_succeeded {α : Type} (st : List (StepRecord α)) (key : String)
    (cnt : Nat) (a : α) (calls : List (StepCall α))
    (h : findRecord st key = some ⟨key, cnt, .succeeded a⟩) :
    findRecord (runCalls st calls) key = some ⟨key, cnt, .succeeded a⟩ := by
  induction calls generalizing st with
  | nil => exact h
  | cons c cs ih =>
    exact ih _ (execute_preserves_succeeded st key cnt a c.1 c.2.1 c.2.2 h)

/-- C1: for every checkpoint key (llm-turn-t or tool-t-id), once a first
execution of the wrapped operation under that key has succeeded, every
later execute with the same key — after any number of intervening executor
calls — returns the identical cached result and invokes the wrapped
operation zero times. -/
theorem step_executor_at_most_one_execution {α : Type} (st : List (StepRecord α))
    (key : String) (p : RetryPolicy) (op : Nat → Except String α)
    (st' : List (StepRecord α)) (a : α) (n : Nat)
    (h : StepExecutor.execute st key p op = (st', .ok a, n))
    (calls : List (StepCall α)) (p' : RetryPolicy) (op' : Nat → Except String α) :
    StepExecutor.execute (runCalls st' calls) key p' op'
      = (runCalls st' calls, .ok a, 0) := by
  obtain ⟨cnt, hrec⟩ := execute_ok_succeeded st key p op st' a n h
  have hrec2 := runCalls_preserves_succeeded st' key cnt a calls hrec
  simp only [StepExecutor.execute, hrec2]

/-- Witness for C1: a first llm-turn-0 execution succeeds with "pong"; after
an intervening tool-step call, re-executing llm-turn-0 with a different
(always-failing) operation still returns the cached "pong" with zero
invocations. -/
theorem step_executor_at_most_one_execution_witness :
    StepExecutor.execute
      (runCalls [({ key := "llm-turn-0", attempts := 1,
                    outcome := .succeeded "pong" } : StepRecord String)]
        [("tool-0-c1", ⟨2, 5000, .fixed⟩, fun _ => .error "net")])
      "llm-turn-0" ⟨3, 10000, .exponential⟩ (fun _ => .error "boom")
    = (runCalls [({ key := "llm-turn-0", attempts := 1,
                    outcome := .succeeded "pong" } : StepRecord String)]
        [("tool-0-c1", ⟨2, 5000, .fixed⟩, fun _ => .error "net")], .ok "pong", 0) :=
  step_executor_at_most_one_execution [] "llm-turn-0" ⟨3, 10000, .exponential⟩
    (fun _ => .ok "pong") _ "pong" 1 rfl
    [("tool-0-c1", ⟨2, 5000, .fixed⟩, fun _ => .error "net")]
    ⟨3, 10000, .exponential⟩ (fun _ => .error "boom")

/- ---------- Loop shape lemmas ---------- -/

theorem toolLoop_ext (env : Env) (turn : Nat) (l : List JVal) :
    ∀ idx m tr, ∃ me te,
      (toolLoop env turn idx l m tr).1 = m ++ me ∧
      (toolLoop env turn idx l m tr).2.1 = tr ++ te := by
  induction l with
  | nil =>
    intro idx m tr
    exact ⟨[], [], by simp [toolLoop], by simp [toolLoop]⟩
  | cons tc rest ih =>
    intro idx m tr
    rcases hfn : toolFnObj tc with _ | ⟨f, nameOpt⟩
    · exact ⟨[], [], by simp [toolLoop, hfn], by simp [toolLoop, hfn]⟩
    · rcases hstep : stepDo 2 (fun i => toolBody env turn idx i f nameOpt) with _ | s
      · exact ⟨[], [fetchingUpd nameOpt],
          by simp [toolLoop, hfn, hstep], by simp [toolLoop, hfn, hstep]⟩
      · obtain ⟨me, te, h1, h2⟩ := ih (idx+1) (m ++ [mkToolMsg tc s]) (tr ++ [fetchingUpd nameOpt])
        refine ⟨[mkToolMsg tc s] ++ me, [fetchingUpd nameOpt] ++ te, ?_, ?_⟩
        · simp only [toolLoop, hfn, hstep]
          rw [h1, List.append_assoc]
        · simp only [toolLoop, hfn, hstep]
          rw [h2, List.append_assoc]


theorem runOut_ext_mono {X : RunOut} {m : List ChatMessage} {tr : List ProgressUpdate}
    (a : List ChatMessage) (b : List ProgressUpdate)
    (h : ∃ me te, X.messages = (m ++ a) ++ me ∧ X.trace = (tr ++ b) ++ te) :
    ∃ me te, X.messages = m ++ me ∧ X.trace = tr ++ te := by
  obtain ⟨me, te, h1, h2⟩ := h
  exact ⟨a ++ me, b ++ te, by rw [h1, List.append_assoc], by rw [h2, List.append_assoc]⟩

theorem runLoop_ext (env : Env) (rem : Nat) :
    ∀ turn m tr, ∃ me te,
      (AgentWorkflow.runLoop env rem turn m tr).messages = m ++ me ∧
      (AgentWorkflow.runLoop env rem turn m tr).trace = tr ++ te := by
  induction rem with
  | zero =>
    intro turn m tr
    exact ⟨[], [], by simp [AgentWorkflow.runLoop], by simp [AgentWorkflow.runLoop]⟩
  | succ rm ih =>
    intro turn m tr
    simp only [AgentWorkflow.runLoop]
    rcases hgw : stepDo 3 (fun i => env.gw turn i m) with _ | v <;> simp only [hgw]
    · exact ⟨[], [analyzingUpd turn], by simp, by simp⟩
    · by_cases hcr : isChatCompletionResponse v = false
      · rw [if_pos hcr]
        exact runOut_ext_mono [] [analyzingUpd turn]
          (by simpa using ih (turn+1) m (tr ++ [analyzingUpd turn]))
      · rw [if_neg hcr]
        rcases hch : choicesOf v with _ | ⟨choice, rest⟩ <;> simp only [hch]
        · exact runOut_ext_mono [] [analyzingUpd turn]
            (by simpa using ih (turn+1) m (tr ++ [analyzingUpd turn]))
        · by_cases hfa : falsy choice = true
          · rw [if_pos hfa]
            exact runOut_ext_mono [] [analyzingUpd turn]
              (by simpa using ih (turn+1) m (tr ++ [analyzingUpd turn]))
          · rw [if_neg hfa]
            rcases hmsg : undefNull (jsProp choice "message") with _ | mv <;> simp only [hmsg]
            · exact ⟨[], [analyzingUpd turn], by simp, by simp⟩
            · by_cases hstop : (strEq (jsProp choice "finish_reason") "stop" ||
                  falsyOpt (jsProp mv "tool_calls") || isEmptyArr (jsProp mv "tool_calls")) = true
              · rw [if_pos hstop]
                exact ⟨[mkAssistantMsg (jsProp mv "content") (jsProp mv "tool_calls")],
                  [analyzingUpd turn, completeUpd (jsProp mv "content")], by simp, by simp⟩
              · rw [if_neg hstop]
                rcases htc : arrOf (jsProp mv "tool_calls") with _ | l <;> simp only [htc]
                · exact ⟨[mkAssistantMsg (jsProp mv "content") (jsProp mv "tool_calls")],
                    [analyzingUpd turn], by simp, by simp⟩
                · obtain ⟨tme, tte, ht1, ht2⟩ := toolLoop_ext env turn l 0
                    (m ++ [mkAssistantMsg (jsProp mv "content") (jsProp mv "tool_calls")])
                    (tr ++ [analyzingUpd turn])
                  rcases htl : toolLoop env turn 0 l
                      (m ++ [mkAssistantMsg (jsProp mv "content") (jsProp mv "tool_calls")])
                      (tr ++ [analyzingUpd turn]) with ⟨m3, tr3, err⟩
                  rw [htl] at ht1 ht2
                  simp only at ht1 ht2
                  rcases err with _ | e <;> simp only [htl]
                  · refine runOut_ext_mono ([mkAssistantMsg (jsProp mv "content")
                        (jsProp mv "tool_calls")] ++ tme) ([analyzingUpd turn] ++ tte) ?_
                    have hm3 : m3 = (m ++ ([mkAssistantMsg (jsProp mv "content")
                        (jsProp mv "tool_calls")] ++ tme)) := by
                      rw [ht1, List.append_assoc]
                    have htr3 : tr3 = (tr ++ ([analyzingUpd turn] ++ tte)) := by
                      rw [ht2, List.append_assoc]
                    rw [← hm3, ← htr3]
                    exact ih (turn+1) m3 tr3
                  · refine ⟨[mkAssistantMsg (jsProp mv "content") (jsProp mv "tool_calls")] ++ tme,
                      [analyzingUpd turn] ++ tte, ?_, ?_⟩
                    · rw [ht1, List.append_assoc]
                    · rw [ht2, List.append_assoc]

/- ---------- Encoder evaluation lemmas ---------- -/

theorem encode_isChat (r : ChatCompletionResponse) :
    isChatCompletionResponse (encodeResponse r) = true := rfl

theorem choicesOf_encode (r : ChatCompletionResponse) :
    choicesOf (encodeResponse r) = r.choices.map encodeChoice := rfl

theorem falsy_encodeChoice (c : Choice) : falsy (encodeChoice c) = false := rfl

theorem msg_encodeChoice (c : Choice) :
    undefNull (jsProp (encodeChoice c) "message") = some (encodeAssistant c.message) := by
  simp only [encodeChoice, encodeAssistant]
  cases hm : c.message.tool_calls <;> rfl

theorem content_encode (msg : AssistantMessage) :
    jsProp (encodeAssistant msg) "content" = some (encodeContent msg.content) := by
  simp only [encodeAssistant]
  cases hm : msg.tool_calls <;> rfl

theorem tool_calls_encode (msg : AssistantMessage) :
    jsProp (encodeAssistant msg) "tool_calls"
      = Option.map (fun l => JVal.arr (l.map encodeToolCall)) msg.tool_calls := by
  simp only [encodeAssistant]
  cases hm : msg.tool_calls <;> rfl

theorem finish_encode (c : Choice) :
    jsProp (encodeChoice c) "finish_reason" = some (.str c.finish_reason.toStr) := rfl

theorem undefNull_encodeContent (x : Option String) :
    undefNull (some (encodeContent x)) = x.map JVal.str := by
  cases x <;> rfl

theorem strEq_toStr_stop (fr : FinishReason) :
    strEq (some (.str fr.toStr)) "stop" = true ↔ fr = .stop := by
  cases fr <;> simp [FinishReason.toStr, strEq]

/- ---------- C8 ---------- -/

/-- C8: publish(update) merges field-wise into the agent state — every
field present in the update overwrites, every absent field keeps its
previous value — and at run start the controller clears result by
publishing a searching update whose result key is present and holds the
empty string. -/
theorem publish_field_level_merge :
    (∀ (st : AgentState) (p : ProgressUpdate),
        (ResearchAgent.updateProgress st p).status = p.status ∧
        (ResearchAgent.updateProgress st p).message = p.message ∧
        (p.result = none → (ResearchAgent.updateProgress st p).result = st.result) ∧
        (∀ r, p.result = some r → (ResearchAgent.updateProgress st p).result = some r)) ∧
    (∀ (env : Env) (task : String), ∃ te,
        (AgentWorkflow.run env task).trace
          = ({ status := "searching", message := "Starting analysis...",
               result := some (some (.str "")) } : ProgressUpdate) :: te) := by
  constructor
  · intro st p
    refine ⟨rfl, rfl, ?_, ?_⟩
    · intro hp
      simp [ResearchAgent.updateProgress, hp]
    · intro r hp
      simp [ResearchAgent.updateProgress, hp]
  · intro env task
    obtain ⟨me, te, _, h2⟩ := runLoop_ext env env.maxTurns 0
      [{ role := "user", content := some (.str task) }] [initialUpd]
    exact ⟨te, by rw [AgentWorkflow.run, h2]; rfl⟩

/-- Witness for C8: an update without a result key keeps the stored
result; an update with a result key overwrites it; and the first update a
concrete run publishes is the searching update with the empty result. -/
theorem publish_field_level_merge_witness :
    (ResearchAgent.updateProgress
        { status := "analyzing", message := "x", result := some (some (.str "old")) }
        { status := "fetching", message := "y" }).result = some (some (.str "old")) ∧
    (ResearchAgent.updateProgress
        { status := "analyzing", message := "x", result := some (some (.str "old")) }
        { status := "complete", message := "z",
          result := some (some (.str "new")) }).result = some (some (.str "new")) ∧
    ∃ te, (AgentWorkflow.run envPong "ping").trace
      = ({ status := "searching", message := "Starting analysis...",
           result := some (some (.str "")) } : ProgressUpdate) :: te :=
  ⟨(publish_field_level_merge.1 _ _).2.2.1 rfl,
   (publish_field_level_merge.1 _ _).2.2.2 _ rfl,
   publish_field_level_merge.2 envPong "ping"⟩

/- ---------- C2 ---------- -/

/-- C2: on any turn whose gateway response is valid (conforms to the
documented shape), if the first choice has finish_reason "stop" or its
message carries no tool_calls (absent or empty), the run terminates with
status complete, result equal to that choice's message content, and a
turns count of turn+1. -/
theorem stop_condition_completes (env : Env) (rem turn : Nat) (m : List ChatMessage)
    (tr : List ProgressUpdate) (r : ChatCompletionResponse) (c : Choice) (cs : List Choice)
    (hgw : env.gw turn 0 m = .ok (encodeResponse r))
    (hch : r.choices = c :: cs)
    (hstop : c.finish_reason = .stop ∨ c.message.tool_calls = none ∨
      c.message.tool_calls = some []) :
    (AgentWorkflow.runLoop env (rem+1) turn m tr).outcome
      = .ok { status := "complete", turns := turn+1,
              result := c.message.content.map JVal.str } := by
  have hstep : stepDo 3 (fun i => env.gw turn i m) = .ok (encodeResponse r) := by
    simp [stepDo, stepTry, hgw]
  have hcond : (strEq (jsProp (encodeChoice c) "finish_reason") "stop"
      || falsyOpt (jsProp (encodeAssistant c.message) "tool_calls")
      || isEmptyArr (jsProp (encodeAssistant c.message) "tool_calls")) = true := by
    rcases hstop with h | h | h
    · simp [finish_encode, (strEq_toStr_stop c.finish_reason).mpr h]
    · simp [tool_calls_encode, h, falsyOpt]
    · simp [tool_calls_encode, h, falsyOpt, falsy, isEmptyArr]
  simp only [AgentWorkflow.runLoop, hstep]
  rw [if_neg (by simp [encode_isChat])]
  simp only [choicesOf_encode, hch, List.map_cons]
  rw [if_neg (by simp [falsy_encodeChoice])]
  simp only [msg_encodeChoice]
  rw [if_pos hcond]
  simp only [content_encode, undefNull_encodeContent]

/-- Witness for C2, spec scenario A: the task "ping", a stop response with
content "pong" on turn 0, and the run completing with turns 1 and result
"pong". -/
theorem stop_condition_completes_witness :
    (AgentWorkflow.runLoop envPong 3 0
        [{ role := "user", content := some (.str "ping") }] [initialUpd]).outcome
      = .ok { status := "complete", turns := 1, result := some (.str "pong") } :=
  stop_condition_completes envPong 2 0
    [{ role := "user", content := some (.str "ping") }] [initialUpd]
    respPong { message := { content := some "pong", tool_calls := none },
               finish_reason := .stop } []
    rfl rfl (Or.inl rfl)

/- ---------- C9 ---------- -/

/-- C9: if a turn's first choice has finish_reason "stop" while its message
also carries a non-empty tool_calls list, the run completes immediately:
no fetching update is published, no tool step runs, no tool-role message
is appended, and the transcript ends with the assistant message whose
tool_calls stay unanswered. -/
theorem stop_overrides_tool_calls (env : Env) (rem turn : Nat) (m : List ChatMessage)
    (tr : List ProgressUpdate) (r : ChatCompletionResponse) (c : Choice) (cs : List Choice)
    (l : List ToolCall)
    (hgw : env.gw turn 0 m = .ok (encodeResponse r))
    (hch : r.choices = c :: cs)
    (hfr : c.finish_reason = .stop)
    (htc : c.message.tool_calls = some l)
    (hne : l ≠ []) :
    AgentWorkflow.runLoop env (rem+1) turn m tr
      = ⟨m ++ [mkAssistantMsg (some (encodeContent c.message.content))
                (some (.arr (l.map encodeToolCall)))],
         tr ++ [analyzingUpd turn, completeUpd (some (encodeContent c.message.content))],
         .ok { status := "complete", turns := turn+1,
               result := c.message.content.map JVal.str }⟩ := by
  have hstep : stepDo 3 (fun i => env.gw turn i m) = .ok (encodeResponse r) := by
    simp [stepDo, stepTry, hgw]
  have hcond : (strEq (jsProp (encodeChoice c) "finish_reason") "stop"
      || falsyOpt (jsProp (encodeAssistant c.message) "tool_calls")
      || isEmptyArr (jsProp (encodeAssistant c.message) "tool_calls")) = true := by
    simp [finish_encode, (strEq_toStr_stop c.finish_reason).mpr hfr]
  simp only [AgentWorkflow.runLoop, hstep]
  rw [if_neg (by simp [encode_isChat])]
  simp only [choicesOf_encode, hch, List.map_cons]
  rw [if_neg (by simp [falsy_encodeChoice])]
  simp only [msg_encodeChoice]
  rw [if_pos hcond]
  simp only [content_encode, tool_calls_encode, htc, Option.map_some',
    undefNull_encodeContent, mkAssistantMsg]
  rw [List.append_assoc]
  rfl

/-- Witness for C9: a stop choice with one unanswered tool call; the run
completes at turn 1 and the transcript ends with the assistant message. -/
theorem stop_overrides_tool_calls_witness :
    AgentWorkflow.runLoop envStopTools 4 0
        [{ role := "user", content := some (.str "go") }] []
      = ⟨[{ role := "user", content := some (.str "go") },
          mkAssistantMsg (some (.str "halting"))
            (some (.arr [encodeToolCall { id := "c9", function := { name := "search_repos", arguments := "args-c9" } }]))],
         [analyzingUpd 0, completeUpd (some (.str "halting"))],
         .ok { status := "complete", turns := 1, result := some (.str "halting") }⟩ :=
  stop_overrides_tool_calls envStopTools 3 0
    [{ role := "user", content := some (.str "go") }] []
    respStopTools stopToolsChoice []
    [{ id := "c9", function := { name := "search_repos", arguments := "args-c9" } }]
    rfl rfl rfl rfl (by simp)

/- ---------- C4 ---------- -/

theorem skip_invalid (env : Env) (rem turn : Nat) (m : List ChatMessage)
    (tr : List ProgressUpdate) (v : JVal)
    (hv : env.gw turn 0 m = .ok v) (hbad : isChatCompletionResponse v = false) :
    AgentWorkflow.runLoop env (rem+1) turn m tr
      = AgentWorkflow.runLoop env rem (turn+1) m (tr ++ [analyzingUpd turn]) := by
  have hstep : stepDo 3 (fun i => env.gw turn i m) = .ok v := by
    simp [stepDo, stepTry, hv]
  simp only [AgentWorkflow.runLoop, hstep]
  rw [if_pos hbad]

theorem skip_empty_or_falsy_choice (env : Env) (rem turn : Nat) (m : List ChatMessage)
    (tr : List ProgressUpdate) (v : JVal)
    (hv : env.gw turn 0 m = .ok v) (hok : isChatCompletionResponse v = true)
    (hch : choicesOf v = [] ∨ ∃ ch rest, choicesOf v = ch :: rest ∧ falsy ch = true) :
    AgentWorkflow.runLoop env (rem+1) turn m tr
      = AgentWorkflow.runLoop env rem (turn+1) m (tr ++ [analyzingUpd turn]) := by
  have hstep : stepDo 3 (fun i => env.gw turn i m) = .ok v := by
    simp [stepDo, stepTry, hv]
  simp only [AgentWorkflow.runLoop, hstep]
  rw [if_neg (by simp [hok])]
  rcases hch with hch | ⟨ch, rest, hch, hfa⟩
  · simp only [hch]
  · simp only [hch]
    rw [if_pos hfa]

/-- C4: a 2xx body failing shape validation (missing string id, string
model or array choices), or validating but having zero choices or a falsy
first choice, makes the loop skip the turn with messages unchanged while
the turn still consumes budget; a gateway malformed on every turn ends the
run in max_turns_reached with an unchanged transcript, not in an error. -/
theorem shape_failure_skips_turn (env : Env) :
    (∀ rem turn m tr v, env.gw turn 0 m = .ok v → isChatCompletionResponse v = false →
      AgentWorkflow.runLoop env (rem+1) turn m tr
        = AgentWorkflow.runLoop env rem (turn+1) m (tr ++ [analyzingUpd turn])) ∧
    (∀ rem turn m tr v, env.gw turn 0 m = .ok v → isChatCompletionResponse v = true →
      (choicesOf v = [] ∨ ∃ ch rest, choicesOf v = ch :: rest ∧ falsy ch = true) →
      AgentWorkflow.runLoop env (rem+1) turn m tr
        = AgentWorkflow.runLoop env rem (turn+1) m (tr ++ [analyzingUpd turn])) ∧
    ((∀ t m', ∃ v, env.gw t 0 m' = .ok v ∧ isChatCompletionResponse v = false) →
      ∀ rem turn m tr,
        (AgentWorkflow.runLoop env rem turn m tr).outcome
          = .ok { status := "max_turns_reached", turns := env.maxTurns } ∧
        (AgentWorkflow.runLoop env rem turn m tr).messages = m) := by
  refine ⟨skip_invalid env, skip_empty_or_falsy_choice env, ?_⟩
  intro hmal rem
  induction rem with
  | zero =>
    intro turn m tr
    exact ⟨rfl, rfl⟩
  | succ rm ih =>
    intro turn m tr
    obtain ⟨v, hv, hbad⟩ := hmal turn m
    rw [skip_invalid env rm turn m tr v hv hbad]
    exact ih (turn+1) m (tr ++ [analyzingUpd turn])

/-- Witness for C4: a bare-string 2xx body on turn 0 skips the turn with
messages untouched, and the same gateway being malformed on both turns of
a two-turn budget ends the run in max_turns_reached with only the user
message in the transcript. -/
theorem shape_failure_skips_turn_witness :
    (AgentWorkflow.runLoop envBadShape 2 0
        [{ role := "user", content := some (.str "t") }] []
      = AgentWorkflow.runLoop envBadShape 1 1
        [{ role := "user", content := some (.str "t") }] [analyzingUpd 0]) ∧
    ((AgentWorkflow.run envBadShape "t").outcome
        = .ok { status := "max_turns_reached", turns := 2 } ∧
      (AgentWorkflow.run envBadShape "t").messages
        = [{ role := "user", content := some (.str "t") }]) :=
  ⟨(shape_failure_skips_turn envBadShape).1 1 0
      [{ role := "user", content := some (.str "t") }] [] (.str "oops") rfl rfl,
   (shape_failure_skips_turn envBadShape).2.2
      (fun _ _ => ⟨.str "oops", rfl, rfl⟩) 2 0
      [{ role := "user", content := some (.str "t") }] [initialUpd]⟩

/- ---------- C3 ---------- -/

theorem runLoop_terminal (env : Env) (rem : Nat) :
    ∀ turn m tr w, (AgentWorkflow.runLoop env rem turn m tr).outcome = .ok w →
      (w.status = "complete" ∧ turn < w.turns ∧ w.turns ≤ turn + rem) ∨
      (w.status = "max_turns_reached" ∧ w.turns = env.maxTurns ∧ w.result = none) := by
  induction rem with
  | zero =>
    intro turn m tr w h
    right
    simp only [AgentWorkflow.runLoop] at h
    rw [← Except.ok.inj h]
    exact ⟨rfl, rfl, rfl⟩
  | succ rm ih =>
    have bump : ∀ (w : WorkflowResult) (t : Nat),
        ((w.status = "complete" ∧ t+1 < w.turns ∧ w.turns ≤ (t+1) + rm) ∨
          (w.status = "max_turns_reached" ∧ w.turns = env.maxTurns ∧ w.result = none)) →
        ((w.status = "complete" ∧ t < w.turns ∧ w.turns ≤ t + (rm+1)) ∨
          (w.status = "max_turns_reached" ∧ w.turns = env.maxTurns ∧ w.result = none)) := by
      rintro w t (⟨h1, h2, h3⟩ | hr)
      · exact Or.inl ⟨h1, by omega, by omega⟩
      · exact Or.inr hr
    intro turn m tr w h
    simp only [AgentWorkflow.runLoop] at h
    rcases hgw : stepDo 3 (fun i => env.gw turn i m) with _ | v <;> simp only [hgw] at h
    · simp at h
    · by_cases hcr : isChatCompletionResponse v = false
      · rw [if_pos hcr] at h
        exact bump w turn (ih (turn+1) m _ w h)
      · rw [if_neg hcr] at h
        rcases hch : choicesOf v with _ | ⟨choice, rest⟩ <;> simp only [hch] at h
        · exact bump w turn (ih (turn+1) m _ w h)
        · by_cases hfa : falsy choice = true
          · rw [if_pos hfa] at h
            exact bump w turn (ih (turn+1) m _ w h)
          · rw [if_neg hfa] at h
            rcases hmsg : undefNull (jsProp choice "message") with _ | mv <;>
              simp only [hmsg] at h
            · simp at h
            · by_cases hstop : (strEq (jsProp choice "finish_reason") "stop" ||
                  falsyOpt (jsProp mv "tool_calls") || isEmptyArr (jsProp mv "tool_calls")) = true
              · rw [if_pos hstop] at h
                left
                have hw : w = { status := "complete", turns := turn + 1, result := undefNull (jsProp mv "content") } := (Except.ok.inj h).symm
                subst hw
                exact ⟨rfl, Nat.lt_succ_self turn, show turn + 1 ≤ turn + (rm+1) by omega⟩
              · rw [if_neg hstop] at h
                rcases htc : arrOf (jsProp mv "tool_calls") with _ | l <;> simp only [htc] at h
                · simp at h
                · rcases htl : toolLoop env turn 0 l
                      (m ++ [mkAssistantMsg (jsProp mv "content") (jsProp mv "tool_calls")])
                      (tr ++ [analyzingUpd turn]) with ⟨m3, tr3, err⟩
                  rcases err with _ | e <;> simp only [htl] at h
                  · exact bump w turn (ih (turn+1) m3 tr3 w h)
                  · simp at h

/-- C3: every run returns a terminal result within MAX_TURNS iterations;
an ok outcome is complete or max_turns_reached with turns never above
MAX_TURNS; and a loop that consumes all its iterations without the stop
condition returns max_turns_reached with turns = MAX_TURNS and no
result. -/
theorem bounded_termination (env : Env) (task : String) :
    (∀ w, (AgentWorkflow.run env task).outcome = .ok w →
      (w.status = "complete" ∨ w.status = "max_turns_reached") ∧
      w.turns ≤ env.maxTurns ∧
      (w.status = "max_turns_reached" → w.turns = env.maxTurns ∧ w.result = none)) ∧
    (∀ turn m tr, (AgentWorkflow.runLoop env 0 turn m tr).outcome
      = .ok { status := "max_turns_reached", turns := env.maxTurns }) := by
  constructor
  · intro w h
    rcases runLoop_terminal env env.maxTurns 0
        [{ role := "user", content := some (.str task) }] [initialUpd] w h with
      ⟨h1, h2, h3⟩ | ⟨h1, h2, h3⟩
    · refine ⟨Or.inl h1, by omega, fun hmax => ?_⟩
      rw [h1] at hmax
      simp at hmax
    · exact ⟨Or.inr h1, by omega, fun _ => ⟨h2, h3⟩⟩
  · intro turn m tr
    rfl

/-- Witness for C3, spec scenario D: a gateway that never validates runs
the full two-turn budget and the run reports max_turns_reached with
turns = 2 and no result. -/
theorem bounded_termination_witness :
    ((⟨"max_turns_reached", 2, none⟩ : WorkflowResult).status = "complete" ∨
      (⟨"max_turns_reached", 2, none⟩ : WorkflowResult).status = "max_turns_reached") ∧
    (⟨"max_turns_reached", 2, none⟩ : WorkflowResult).turns ≤ envShapeLoop.maxTurns ∧
    ((⟨"max_turns_reached", 2, none⟩ : WorkflowResult).status = "max_turns_reached" →
      (⟨"max_turns_reached", 2, none⟩ : WorkflowResult).turns = envShapeLoop.maxTurns ∧
      (⟨"max_turns_reached", 2, none⟩ : WorkflowResult).result = none) :=
  (bounded_termination envShapeLoop "task").1 ⟨"max_turns_reached", 2, none⟩ rfl

/- ---------- C10 ---------- -/

theorem toolLoop_trace_mem (env : Env) (turn : Nat) (l : List JVal) :
    ∀ idx m tr u, u ∈ (toolLoop env turn idx l m tr).2.1 →
      u ∈ tr ∨ u.status = "fetching" := by
  induction l with
  | nil =>
    intro idx m tr u hu
    exact Or.inl (by simpa [toolLoop] using hu)
  | cons tc rest ih =>
    intro idx m tr u hu
    rcases hfn : toolFnObj tc with _ | ⟨f, nameOpt⟩
    · simp only [toolLoop, hfn] at hu
      exact Or.inl hu
    · rcases hstep : stepDo 2 (fun i => toolBody env turn idx i f nameOpt) with _ | s
      · simp only [toolLoop, hfn, hstep] at hu
        rcases List.mem_append.1 hu with h2 | h2
        · exact Or.inl h2
        · right
          simp at h2
          rw [h2]
          rfl
      · simp only [toolLoop, hfn, hstep] at hu
        rcases ih (idx+1) (m ++ [mkToolMsg tc s]) (tr ++ [fetchingUpd nameOpt]) u hu with h2 | h2
        · rcases List.mem_append.1 h2 with h3 | h3
          · exact Or.inl h3
          · right
            simp at h3
            rw [h3]
            rfl
        · exact Or.inr h2

theorem runLoop_maxturns_trace (env : Env) (rem : Nat) :
    ∀ turn m tr w, (AgentWorkflow.runLoop env rem turn m tr).outcome = .ok w →
      w.status = "max_turns_reached" →
      ∀ u ∈ (AgentWorkflow.runLoop env rem turn m tr).trace,
        u ∈ tr ∨ u.status = "analyzing" ∨ u.status = "fetching" := by
  induction rem with
  | zero =>
    intro turn m tr w _ _ u hu
    exact Or.inl (by simpa [AgentWorkflow.runLoop] using hu)
  | succ rm ih =>
    intro turn m tr w h hw u hu
    have absorb : ∀ u : ProgressUpdate, u ∈ tr ++ [analyzingUpd turn] →
        u ∈ tr ∨ u.status = "analyzing" ∨ u.status = "fetching" := by
      intro u hu
      rcases List.mem_append.1 hu with h2 | h2
      · exact Or.inl h2
      · right
        left
        simp at h2
        rw [h2]
        rfl
    simp only [AgentWorkflow.runLoop] at h hu
    rcases hgw : stepDo 3 (fun i => env.gw turn i m) with _ | v <;> simp only [hgw] at h hu
    · simp at h
    · by_cases hcr : isChatCompletionResponse v = false
      · rw [if_pos hcr] at h hu
        rcases ih (turn+1) m (tr ++ [analyzingUpd turn]) w h hw u hu with hin | hst
        · exact absorb u hin
        · exact Or.inr hst
      · rw [if_neg hcr] at h hu
        rcases hch : choicesOf v with _ | ⟨choice, rest⟩ <;> simp only [hch] at h hu
        · rcases ih (turn+1) m (tr ++ [analyzingUpd turn]) w h hw u hu with hin | hst
          · exact absorb u hin
          · exact Or.inr hst
        · by_cases hfa : falsy choice = true
          · rw [if_pos hfa] at h hu
            rcases ih (turn+1) m (tr ++ [analyzingUpd turn]) w h hw u hu with hin | hst
            · exact absorb u hin
            · exact Or.inr hst
          · rw [if_neg hfa] at h hu
            rcases hmsg : undefNull (jsProp choice "message") with _ | mv <;>
              simp only [hmsg] at h hu
            · simp at h
            · by_cases hstop : (strEq (jsProp choice "finish_reason") "stop" ||
                  falsyOpt (jsProp mv "tool_calls") || isEmptyArr (jsProp mv "tool_calls")) = true
              · rw [if_pos hstop] at h
                have hww : w = { status := "complete", turns := turn + 1, result := undefNull (jsProp mv "content") } := (Except.ok.inj h).symm
                rw [hww] at hw
                simp at hw
              · rw [if_neg hstop] at h hu
                rcases htc : arrOf (jsProp mv "tool_calls") with _ | l <;> simp only [htc] at h hu
                · simp at h
                · rcases htl : toolLoop env turn 0 l
                      (m ++ [mkAssistantMsg (jsProp mv "content") (jsProp mv "tool_calls")])
                      (tr ++ [analyzingUpd turn]) with ⟨m3, tr3, err⟩
                  rcases err with _ | e <;> simp only [htl] at h hu
                  · rcases ih (turn+1) m3 tr3 w h hw u hu with hin | hst
                    · have h3 := toolLoop_trace_mem env turn l 0
                        (m ++ [mkAssistantMsg (jsProp mv "content") (jsProp mv "tool_calls")])
                        (tr ++ [analyzingUpd turn]) u (by rw [htl]; exact hin)
                      rcases h3 with h4 | h4
                      · exact absorb u h4
                      · exact Or.inr (Or.inr h4)
                    · exact Or.inr hst
                  · simp at h

theorem foldl_updateProgress_pred (P : String → Prop) :
    ∀ (trc : List ProgressUpdate) (st : AgentState), P st.status →
      (∀ u ∈ trc, P u.status) →
      P ((trc.foldl ResearchAgent.updateProgress st).status) := by
  intro trc
  induction trc with
  | nil =>
    intro st h _
    exact h
  | cons u us ih =>
    intro st _ hall
    simp only [List.foldl_cons]
    exact ih _ (hall u (List.mem_cons_self u us)) (fun v hv => hall v (List.mem_cons_of_mem u hv))

/-- C10: a run that ends in max_turns_reached publishes no terminal
update: every update of its trace is a running-phase one (searching,
analyzing or fetching), so the folded AgentState keeps a running-phase
status — neither complete nor error — until the explicit reset, which
restores the idle initial state. -/
theorem max_turns_publishes_no_terminal (env : Env) (task : String) (w : WorkflowResult)
    (hok : (AgentWorkflow.run env task).outcome = .ok w)
    (hmax : w.status = "max_turns_reached") :
    (∀ u ∈ (AgentWorkflow.run env task).trace,
        u.status = "searching" ∨ u.status = "analyzing" ∨ u.status = "fetching") ∧
    ((AgentWorkflow.run env task).trace.foldl ResearchAgent.updateProgress
        ResearchAgent.initialState).status ≠ "complete" ∧
    ((AgentWorkflow.run env task).trace.foldl ResearchAgent.updateProgress
        ResearchAgent.initialState).status ≠ "error" ∧
    (∀ st, ResearchAgent.reset st = ResearchAgent.initialState) := by
  have hall : ∀ u ∈ (AgentWorkflow.run env task).trace,
      u.status = "searching" ∨ u.status = "analyzing" ∨ u.status = "fetching" := by
    intro u hu
    rcases runLoop_maxturns_trace env env.maxTurns 0
        [{ role := "user", content := some (.str task) }] [initialUpd] w hok hmax u hu with
      hin | hst
    · left
      simp at hin
      rw [hin]
      rfl
    · exact Or.inr hst
  have hne2 : ∀ u ∈ (AgentWorkflow.run env task).trace,
      u.status ≠ "complete" ∧ u.status ≠ "error" := by
    intro u hu
    rcases hall u hu with h | h | h <;> rw [h] <;> exact ⟨by decide, by decide⟩
  have hfold := foldl_updateProgress_pred (fun s => s ≠ "complete" ∧ s ≠ "error")
    (AgentWorkflow.run env task).trace ResearchAgent.initialState
    ⟨by decide, by decide⟩ hne2
  exact ⟨hall, hfold.1, hfold.2, fun st => rfl⟩

/-- Witness for C10: a one-turn budget with a malformed gateway reaches
max_turns_reached; the concrete trace holds only running-phase updates and
the folded AgentState is not complete or error. -/
theorem max_turns_publishes_no_terminal_witness :
    (∀ u ∈ (AgentWorkflow.run envNumBody "t").trace,
        u.status = "searching" ∨ u.status = "analyzing" ∨ u.status = "fetching") ∧
    ((AgentWorkflow.run envNumBody "t").trace.foldl ResearchAgent.updateProgress
        ResearchAgent.initialState).status ≠ "complete" ∧
    ((AgentWorkflow.run envNumBody "t").trace.foldl ResearchAgent.updateProgress
        ResearchAgent.initialState).status ≠ "error" ∧
    (∀ st, ResearchAgent.reset st = ResearchAgent.initialState) :=
  max_turns_publishes_no_terminal envNumBody "t" ⟨"max_turns_reached", 1, none⟩ rfl rfl

/- ---------- C5 ---------- -/

/-- Counterexample for C5: the claim says the tool step returns a string
and the run continues even when the arguments string is not parseable; in
fact JSON.parse throws inside the checkpointed step body (workflow.ts line
161), every retry fails the same way, the tool step exhausts and the run
aborts with StepExhausted — no tool message is appended. -/
theorem tool_dispatch_unparseable_aborts :
    (AgentWorkflow.run envUnparseable "t").outcome = .error .stepExhausted ∧
    (AgentWorkflow.run envUnparseable "t").messages
      = [{ role := "user", content := some (.str "t") },
         mkAssistantMsg (some .null)
           (some (.arr [encodeToolCall { id := "c1", function := { name := "search_repos", arguments := "not-json" } }]))] :=
  ⟨rfl, rfl⟩

/-- C5 (amended): for every tool-call payload whose arguments string
parses, dispatch returns a string and never raises — "Invalid arguments
for name" on failed shape validation, "Unknown tool: name" for an
unrecognized name — and a tool step that returns a string lets the run
continue with the tool message appended; an arguments string that does not
parse instead fails the step body (JSON.parse throws), which is retried
and, once exhausted, aborts the run. -/
theorem tool_dispatch_parseable_returns_string (env : Env) (turn idx attempt : Nat)
    (f : JVal) (args : JVal) (n : String)
    (hparse : env.jsonParse (jsToStringOpt (jsProp f "arguments")) = some args) :
    (n ≠ "search_repos" → n ≠ "get_repo" →
      toolBody env turn idx attempt f (some (.str n)) = .ok ("Unknown tool: " ++ n)) ∧
    (isSearchReposInput args = false →
      toolBody env turn idx attempt f (some (.str "search_repos"))
        = .ok "Invalid arguments for search_repos") ∧
    (isGetRepoInput args = false →
      toolBody env turn idx attempt f (some (.str "get_repo"))
        = .ok "Invalid arguments for get_repo") ∧
    (∀ rest m tr tc s, toolFnObj tc = .ok (f, some (.str n)) →
      stepDo 2 (fun i => toolBody env turn idx i f (some (.str n))) = .ok s →
      toolLoop env turn idx (tc :: rest) m tr
        = toolLoop env turn (idx+1) rest (m ++ [mkToolMsg tc s])
            (tr ++ [fetchingUpd (some (.str n))])) := by
  refine ⟨?_, ?_, ?_, ?_⟩
  · intro h1 h2
    simp only [toolBody, hparse]
    rw [if_neg h1, if_neg h2]
  · intro hbad
    simp only [toolBody, hparse, if_true]
    rw [if_neg (by simp [hbad])]
  · intro hbad
    simp only [toolBody, hparse, if_true]
    simp [hbad]
  · intro rest m tr tc s hfn hstep
    simp only [toolLoop, hfn, hstep]

/-- Witness for the amended C5, including spec scenario E: with parseable
arguments lacking the query field, the unknown tool "frobnicate" yields
its error string and search_repos yields the invalid-arguments string. -/
theorem tool_dispatch_parseable_returns_string_witness :
    toolBody envParse 0 0 0 (.obj [("arguments", .str "z")]) (some (.str "frobnicate"))
      = .ok ("Unknown tool: " ++ "frobnicate") ∧
    toolBody envParse 0 0 0 (.obj [("arguments", .str "z")]) (some (.str "search_repos"))
      = .ok "Invalid arguments for search_repos" :=
  ⟨(tool_dispatch_parseable_returns_string envParse 0 0 0 (.obj [("arguments", .str "z")])
      (.obj [("limit", .num 5)]) "frobnicate" rfl).1 (by decide) (by decide),
   (tool_dispatch_parseable_returns_string envParse 0 0 0 (.obj [("arguments", .str "z")])
      (.obj [("limit", .num 5)]) "search_repos" rfl).2.1 rfl⟩

/- ---------- C6 ---------- -/

theorem runLoop_trace_statuses (env : Env) (rem : Nat) :
    ∀ turn m tr u, u ∈ (AgentWorkflow.runLoop env rem turn m tr).trace →
      u ∈ tr ∨ u.status = "analyzing" ∨ u.status = "fetching" ∨ u.status = "complete" := by
  induction rem with
  | zero =>
    intro turn m tr u hu
    exact Or.inl (by simpa [AgentWorkflow.runLoop] using hu)
  | succ rm ih =>
    intro turn m tr u hu
    have absorb : ∀ u : ProgressUpdate, u ∈ tr ++ [analyzingUpd turn] →
        u ∈ tr ∨ u.status = "analyzing" ∨ u.status = "fetching" ∨ u.status = "complete" := by
      intro u hu
      rcases List.mem_append.1 hu with h2 | h2
      · exact Or.inl h2
      · right
        left
        simp at h2
        rw [h2]
        rfl
    have push : ∀ u : ProgressUpdate, (u ∈ tr ++ [analyzingUpd turn] ∨ u.status = "analyzing" ∨
        u.status = "fetching" ∨ u.status = "complete") →
        u ∈ tr ∨ u.status = "analyzing" ∨ u.status = "fetching" ∨ u.status = "complete" := by
      intro u h2
      rcases h2 with h2 | h2
      · exact absorb u h2
      · exact Or.inr h2
    simp only [AgentWorkflow.runLoop] at hu
    rcases hgw : stepDo 3 (fun i => env.gw turn i m) with _ | v <;> simp only [hgw] at hu
    · exact absorb u hu
    · by_cases hcr : isChatCompletionResponse v = false
      · rw [if_pos hcr] at hu
        exact push u (ih (turn+1) m _ u hu)
      · rw [if_neg hcr] at hu
        rcases hch : choicesOf v with _ | ⟨choice, rest⟩ <;> simp only [hch] at hu
        · exact push u (ih (turn+1) m _ u hu)
        · by_cases hfa : falsy choice = true
          · rw [if_pos hfa] at hu
            exact push u (ih (turn+1) m _ u hu)
          · rw [if_neg hfa] at hu
            rcases hmsg : undefNull (jsProp choice "message") with _ | mv <;>
              simp only [hmsg] at hu
            · exact absorb u hu
            · by_cases hstop : (strEq (jsProp choice "finish_reason") "stop" ||
                  falsyOpt (jsProp mv "tool_calls") || isEmptyArr (jsProp mv "tool_calls")) = true
              · rw [if_pos hstop] at hu
                rcases List.mem_append.1 hu with h2 | h2
                · exact absorb u h2
                · right
                  right
                  right
                  simp at h2
                  rw [h2]
                  rfl
              · rw [if_neg hstop] at hu
                rcases htc : arrOf (jsProp mv "tool_calls") with _ | l <;> simp only [htc] at hu
                · exact absorb u hu
                · rcases htl : toolLoop env turn 0 l
                      (m ++ [mkAssistantMsg (jsProp mv "content") (jsProp mv "tool_calls")])
                      (tr ++ [analyzingUpd turn]) with ⟨m3, tr3, err⟩
                  have tls : ∀ u : ProgressUpdate, u ∈ tr3 →
                      u ∈ tr ∨ u.status = "analyzing" ∨ u.status = "fetching" ∨
                        u.status = "complete" := by
                    intro u h2
                    rcases toolLoop_trace_mem env turn l 0
                        (m ++ [mkAssistantMsg (jsProp mv "content") (jsProp mv "tool_calls")])
                        (tr ++ [analyzingUpd turn]) u (by rw [htl]; exact h2) with h3 | h3
                    · exact absorb u h3
                    · exact Or.inr (Or.inr (Or.inl h3))
                  rcases err with _ | e <;> simp only [htl] at hu
                  · rcases ih (turn+1) m3 tr3 u hu with h2 | h2
                    · exact tls u h2
                    · exact Or.inr h2
                  · exact tls u hu

/-- Counterexample for C6: a run whose llm step exhausts its retries ends
with the StepExhausted error, yet its trace contains no update with
status "error" — nothing is surfaced to AgentState; and a 2xx body passing
shallow validation whose first choice lacks a message object aborts the
run with a type error, so StepExhausted is not the only aborting
failure. -/
theorem step_exhausted_counterexample :
    (AgentWorkflow.run envExhaust "t").outcome = .error .stepExhausted ∧
    (∀ u ∈ (AgentWorkflow.run envExhaust "t").trace, u.status ≠ "error") ∧
    (AgentWorkflow.run envDeepBad "t").outcome = .error .jsError := by
  refine ⟨rfl, ?_, rfl⟩
  intro u hu
  have htr : (AgentWorkflow.run envExhaust "t").trace = [initialUpd, analyzingUpd 0] := rfl
  rw [htr] at hu
  simp only [List.mem_cons, List.mem_singleton] at hu
  rcases hu with h | h | h
  · rw [h]
    decide
  · rw [h]
    decide
  · exact absurd h (by simp)

/-- C6 (amended): when the turn-0 llm step exhausts its retry budget (and
the budget allows at least one turn), the error propagates and the run
aborts with StepExhausted — status error at the control surface; but on
every run whatsoever, no update with status "error" is ever published to
AgentState. -/
theorem step_exhausted_aborts_without_agent_error (env : Env) (task : String) :
    (0 < env.maxTurns →
      (∀ i, env.gw 0 i [{ role := "user", content := some (.str task) }] = .error ()) →
      (AgentWorkflow.run env task).outcome = .error .stepExhausted) ∧
    (∀ u ∈ (AgentWorkflow.run env task).trace, u.status ≠ "error") := by
  constructor
  · intro hpos hfail
    obtain ⟨k, hk⟩ : ∃ k, env.maxTurns = k + 1 := ⟨env.maxTurns - 1, by omega⟩
    have hstep : stepDo 3
        (fun i => env.gw 0 i [{ role := "user", content := some (.str task) }]) = .error () := by
      simp [stepDo, stepTry, hfail 0, hfail 1, hfail 2, hfail 3]
    show (AgentWorkflow.runLoop env env.maxTurns 0
        [{ role := "user", content := some (.str task) }] [initialUpd]).outcome
      = .error .stepExhausted
    rw [hk]
    simp only [AgentWorkflow.runLoop, hstep]
  · intro u hu
    rcases runLoop_trace_statuses env env.maxTurns 0
        [{ role := "user", content := some (.str task) }] [initialUpd] u hu with
      hin | h | h | h
    · simp at hin
      rw [hin]
      decide
    · rw [h]
      decide
    · rw [h]
      decide
    · rw [h]
      decide

/-- Witness for the amended C6, spec scenario C: the gateway failing every
attempt aborts the concrete run with StepExhausted and its trace carries
no error-status update. -/
theorem step_exhausted_aborts_without_agent_error_witness :
    (AgentWorkflow.run envExhaust "task").outcome = .error .stepExhausted ∧
    (∀ u ∈ (AgentWorkflow.run envExhaust "task").trace, u.status ≠ "error") :=
  ⟨(step_exhausted_aborts_without_agent_error envExhaust "task").1 (by decide) (fun _ => rfl),
   (step_exhausted_aborts_without_agent_error envExhaust "task").2⟩

/- ---------- C7 ---------- -/

theorem arrOf_eq_some (x : Option JVal) (l : List JVal) (h : arrOf x = some l) :
    x = some (.arr l) := by
  rcases x with _ | v
  · simp [arrOf] at h
  · rcases v with _ | b | nn | s | xs | fs <;> simp [arrOf] at h
    rw [h]

theorem toolLoop_zip (env : Env) (turn : Nat) (l : List JVal) :
    ∀ idx m tr, ∃ res : List String, res.length ≤ l.length ∧
      (toolLoop env turn idx l m tr).1
        = m ++ List.zipWith mkToolMsg (l.take res.length) res := by
  induction l with
  | nil =>
    intro idx m tr
    exact ⟨[], by simp, by simp [toolLoop]⟩
  | cons tc rest ih =>
    intro idx m tr
    rcases hfn : toolFnObj tc with _ | ⟨f, nameOpt⟩
    · exact ⟨[], by simp, by simp [toolLoop, hfn]⟩
    · rcases hstep : stepDo 2 (fun i => toolBody env turn idx i f nameOpt) with _ | s
      · exact ⟨[], by simp, by simp [toolLoop, hfn, hstep]⟩
      · obtain ⟨res, hlen, heq⟩ := ih (idx+1) (m ++ [mkToolMsg tc s]) (tr ++ [fetchingUpd nameOpt])
        refine ⟨s :: res, by simpa using hlen, ?_⟩
        simp only [toolLoop, hfn, hstep]
        rw [heq, List.length_cons, List.take_succ_cons, List.zipWith_cons_cons,
          List.append_assoc]
        rfl

theorem mem_zipWith_mkToolMsg (xs : List JVal) :
    ∀ res msg, msg ∈ List.zipWith mkToolMsg xs res →
      ∃ tc, tc ∈ xs ∧ ∃ s, msg = mkToolMsg tc s := by
  induction xs with
  | nil =>
    intro res msg h
    simp at h
  | cons x xs ih =>
    intro res msg h
    rcases res with _ | ⟨r, rs⟩
    · simp at h
    · rcases List.mem_cons.1 (by simpa using h) with h2 | h2
      · exact ⟨x, List.mem_cons_self x xs, r, h2⟩
      · obtain ⟨tc, htc, s, hs⟩ := ih rs msg h2
        exact ⟨tc, List.mem_cons_of_mem x htc, s, hs⟩

theorem toolMatches_mono (pre pre' : List ChatMessage) (msg : ChatMessage)
    (hsub : ∀ a ∈ pre, a ∈ pre') (h : ToolMatches pre msg) : ToolMatches pre' msg := by
  intro hrole
  obtain ⟨amsg, hmem, hrest⟩ := h hrole
  exact ⟨amsg, hsub amsg hmem, hrest⟩

theorem toolIdOkAux_append (ys : List ChatMessage) :
    ∀ xs pre, ToolIdOkAux pre (xs ++ ys) ↔
      (ToolIdOkAux pre xs ∧ ToolIdOkAux (pre ++ xs) ys) := by
  intro xs
  induction xs with
  | nil =>
    intro pre
    simp [ToolIdOkAux]
  | cons x xs ih =>
    intro pre
    constructor
    · rintro ⟨h1, h2⟩
      have h3 := (ih (pre ++ [x])).1 h2
      refine ⟨⟨h1, h3.1⟩, ?_⟩
      have h4 := h3.2
      rwa [List.append_assoc, List.singleton_append] at h4
    · rintro ⟨⟨h1, h2⟩, h3⟩
      refine ⟨h1, (ih (pre ++ [x])).2 ⟨h2, ?_⟩⟩
      rwa [List.append_assoc, List.singleton_append]

theorem toolIdOkAux_of_forall (ts : List ChatMessage) :
    ∀ pre, (∀ msg ∈ ts, ToolMatches pre msg) → ToolIdOkAux pre ts := by
  induction ts with
  | nil =>
    intro pre _
    trivial
  | cons t ts ih =>
    intro pre h
    refine ⟨h t (List.mem_cons_self t ts), ih (pre ++ [t]) ?_⟩
    intro msg hmsg
    exact toolMatches_mono pre (pre ++ [t]) msg
      (fun a ha => List.mem_append_left _ ha) (h msg (List.mem_cons_of_mem t hmsg))

theorem toolIdOkAux_split (pre : List ChatMessage) :
    ∀ (acc l post : List ChatMessage) (msg : ChatMessage), ToolIdOkAux acc l →
      l = pre ++ msg :: post → ToolMatches (acc ++ pre) msg := by
  induction pre with
  | nil =>
    intro acc l post msg hok hl
    subst hl
    exact (by simpa using hok.1)
  | cons p ps ih =>
    intro acc l post msg hok hl
    subst hl
    have h2 := ih (acc ++ [p]) (ps ++ msg :: post) post msg hok.2 rfl
    rw [List.append_assoc] at h2
    simpa using h2

theorem toolLoop_preserves_toolIdOk (env : Env) (turn : Nat) (L : List JVal)
    (A : ChatMessage) (hArole : A.role = "assistant") (hAtc : A.tool_calls = some (.arr L))
    (l : List JVal) (idx : Nat) (m : List ChatMessage) (tr : List ProgressUpdate)
    (hsub : ∀ tc ∈ l, tc ∈ L) (hA : A ∈ m) (hok : ToolIdOk m) :
    ToolIdOk (toolLoop env turn idx l m tr).1 := by
  obtain ⟨res, hlen, heq⟩ := toolLoop_zip env turn l idx m tr
  rw [heq]
  refine (toolIdOkAux_append _ _ _).2 ⟨hok, ?_⟩
  refine toolIdOkAux_of_forall _ _ ?_
  intro msg hmsg
  obtain ⟨tc, htc, s, rfl⟩ := mem_zipWith_mkToolMsg _ _ msg hmsg
  intro _
  exact ⟨A, (by simpa using hA), hArole, L, hAtc, tc,
    hsub tc (List.take_subset _ _ htc), rfl⟩

theorem runLoop_preserves_toolIdOk (env : Env) (rem : Nat) :
    ∀ turn m tr, ToolIdOk m →
      ToolIdOk (AgentWorkflow.runLoop env rem turn m tr).messages := by
  induction rem with
  | zero =>
    intro turn m tr hok
    exact hok
  | succ rm ih =>
    intro turn m tr hok
    have hA : ∀ content tcs, ToolIdOkAux m [mkAssistantMsg content tcs] := by
      intro content tcs
      refine ⟨?_, trivial⟩
      intro hr
      simp [mkAssistantMsg] at hr
    simp only [AgentWorkflow.runLoop]
    rcases hgw : stepDo 3 (fun i => env.gw turn i m) with _ | v <;> simp only [hgw]
    · exact hok
    · by_cases hcr : isChatCompletionResponse v = false
      · rw [if_pos hcr]
        exact ih (turn+1) m _ hok
      · rw [if_neg hcr]
        rcases hch : choicesOf v with _ | ⟨choice, rest⟩ <;> simp only [hch]
        · exact ih (turn+1) m _ hok
        · by_cases hfa : falsy choice = true
          · rw [if_pos hfa]
            exact ih (turn+1) m _ hok
          · rw [if_neg hfa]
            rcases hmsg : undefNull (jsProp choice "message") with _ | mv <;>
              simp only [hmsg]
            · exact hok
            · have hok2 : ToolIdOk (m ++ [mkAssistantMsg (jsProp mv "content")
                  (jsProp mv "tool_calls")]) :=
                (toolIdOkAux_append _ _ _).2
                  ⟨hok, by simpa using (hA (jsProp mv "content") (jsProp mv "tool_calls"))⟩
              by_cases hstop : (strEq (jsProp choice "finish_reason") "stop" ||
                  falsyOpt (jsProp mv "tool_calls") || isEmptyArr (jsProp mv "tool_calls")) = true
              · rw [if_pos hstop]
                exact hok2
              · rw [if_neg hstop]
                rcases htc : arrOf (jsProp mv "tool_calls") with _ | l <;> simp only [htc]
                · exact hok2
                · have htcs := arrOf_eq_some _ _ htc
                  have hok3 := toolLoop_preserves_toolIdOk env turn l
                    (mkAssistantMsg (jsProp mv "content") (jsProp mv "tool_calls"))
                    rfl (by simpa [mkAssistantMsg] using htcs) l 0
                    (m ++ [mkAssistantMsg (jsProp mv "content") (jsProp mv "tool_calls")])
                    (tr ++ [analyzingUpd turn]) (fun tc h => h) (by simp) hok2
                  rcases htl : toolLoop env turn 0 l
                      (m ++ [mkAssistantMsg (jsProp mv "content") (jsProp mv "tool_calls")])
                      (tr ++ [analyzingUpd turn]) with ⟨m3, tr3, err⟩
                  rw [htl] at hok3
                  rcases err with _ | e <;> simp only
                  · exact ih (turn+1) m3 tr3 hok3
                  · exact hok3

/-- C7: throughout every run the transcript is append-only (the incoming
messages list is always a prefix of the outgoing one, so prior entries are
never mutated or reordered); every tool-role message's tool_call_id equals
the id of a ToolCall emitted in an earlier assistant message; and within a
turn the tool loop appends its tool messages in exactly the order the tool
calls were requested (the appended block zips an initial segment of the
request list with the step results). -/
theorem transcript_append_only_and_tool_ids :
    (∀ (env : Env) (rem turn : Nat) (m : List ChatMessage) (tr : List ProgressUpdate),
      ∃ ext, (AgentWorkflow.runLoop env rem turn m tr).messages = m ++ ext) ∧
    (∀ (env : Env) (task : String) (pre : List ChatMessage) (msg : ChatMessage)
        (post : List ChatMessage),
      (AgentWorkflow.run env task).messages = pre ++ msg :: post → msg.role = "tool" →
      ∃ amsg, amsg ∈ pre ∧ amsg.role = "assistant" ∧
        ∃ tcl, amsg.tool_calls = some (.arr tcl) ∧
          ∃ tc, tc ∈ tcl ∧ msg.tool_call_id = jsProp tc "id") ∧
    (∀ (env : Env) (turn idx : Nat) (l : List JVal) (m : List ChatMessage)
        (tr : List ProgressUpdate),
      ∃ res : List String, res.length ≤ l.length ∧
        (toolLoop env turn idx l m tr).1
          = m ++ List.zipWith mkToolMsg (l.take res.length) res) := by
  refine ⟨?_, ?_, ?_⟩
  · intro env rem turn m tr
    obtain ⟨me, te, h1, _⟩ := runLoop_ext env rem turn m tr
    exact ⟨me, h1⟩
  · intro env task pre msg post hsplit hrole
    have hinit : ToolIdOk [{ role := "user", content := some (.str task) }] := by
      refine ⟨?_, trivial⟩
      intro hr
      simp at hr
    have hok : ToolIdOk (AgentWorkflow.run env task).messages :=
      runLoop_preserves_toolIdOk env env.maxTurns 0
        [{ role := "user", content := some (.str task) }] [initialUpd] hinit
    have hm := toolIdOkAux_split pre [] (AgentWorkflow.run env task).messages post msg
      hok hsplit
    have hm2 : ToolMatches pre msg := by simpa using hm
    exact hm2 hrole
  · intro env turn idx l m tr
    exact toolLoop_zip env turn l idx m tr

/-- Witness for C7, spec scenario B shape: in a concrete two-turn run with
one search_repos call (id c1), the transcript is an extension of its seed,
the tool message's tool_call_id c1 points back to the assistant message's
ToolCall, and the tool loop's appended block is the zip of the request
list with the step results. -/
theorem transcript_append_only_and_tool_ids_witness :
    (∃ ext, (AgentWorkflow.runLoop envPong 1 0 [] []).messages = [] ++ ext) ∧
    (∃ amsg, amsg ∈ [{ role := "user", content := some (.str "q") },
        mkAssistantMsg (some .null) (some (.arr [encodeToolCall { id := "c1", function := { name := "search_repos", arguments := "args-c1" } }]))] ∧
      amsg.role = "assistant" ∧
      ∃ tcl, amsg.tool_calls = some (.arr tcl) ∧
        ∃ tc, tc ∈ tcl ∧
          (mkToolMsg (encodeToolCall { id := "c1", function := { name := "search_repos", arguments := "args-c1" } }) "searchresult").tool_call_id
            = jsProp tc "id") ∧
    (∃ res : List String,
      res.length ≤ [encodeToolCall { id := "c1", function := { name := "search_repos", arguments := "args-c1" } }].length ∧
      (toolLoop envToolRun 0 0
          [encodeToolCall { id := "c1", function := { name := "search_repos", arguments := "args-c1" } }] [] []).1
        = [] ++ List.zipWith mkToolMsg
            ([encodeToolCall { id := "c1", function := { name := "search_repos", arguments := "args-c1" } }].take res.length) res) :=
  ⟨transcript_append_only_and_tool_ids.1 envPong 1 0 [] [],
   transcript_append_only_and_tool_ids.2.1 envToolRun "q"
     [{ role := "user", content := some (.str "q") },
      mkAssistantMsg (some .null) (some (.arr [encodeToolCall { id := "c1", function := { name := "search_repos", arguments := "args-c1" } }]))]
     (mkToolMsg (encodeToolCall { id := "c1", function := { name := "search_repos", arguments := "args-c1" } }) "searchresult")
     [mkAssistantMsg (some (.str "done")) none]
     rfl rfl,
   transcript_append_only_and_tool_ids.2.2 envToolRun 0 0
     [encodeToolCall { id := "c1", function := { name := "search_repos", arguments := "args-c1" } }] [] []⟩
